import Mathlib

/-!
# Verification of the incremental update / vintage-detection subsystem

Shallow embedding of `scripts/ingest_flat_series_with_vintages.py` and
`scripts/ingest_flat_series_incremental.py` from the `database_PX`
repository.  Python dicts are modelled as association lists (first key
occurrence wins on lookup, matching unique-key Python dicts), numeric
observation values as rationals (the scripts' float arithmetic on the
claim-relevant paths is plain field arithmetic plus one relative-tolerance
comparison), and the Firebase document store as an explicit state record
threaded through each operation.  Network fetches and the wall clock are
supplied by an environment record.
-/

set_option autoImplicit false

namespace DatabasePX

/-- Association-list lookup: first entry with the given key wins,
mirroring lookup in a Python dict (whose keys are unique). -/
def alookup {κ α : Type} [DecidableEq κ] : List (κ × α) → κ → Option α
  | [], _ => none
  | (k, v) :: m, q => if q = k then some v else alookup m q

/-- Left-biased choice on options (`a` if it is `some`, else `b`),
used to state lookup laws of the dictionary operations. -/
def optOr {α : Type} : Option α → Option α → Option α
  | some v, _ => some v
  | none, b => b

instance {ε α : Type} [DecidableEq ε] [DecidableEq α] :
    DecidableEq (Except ε α) := fun a b =>
  match a, b with
  | .error e, .error f =>
    if h : e = f then isTrue (by rw [h])
    else isFalse (by intro hh; injection hh; exact h (by assumption))
  | .ok x, .ok y =>
    if h : x = y then isTrue (by rw [h])
    else isFalse (by intro hh; injection hh; exact h (by assumption))
  | .error _, .ok _ => isFalse (by intro hh; exact Except.noConfusion hh)
  | .ok _, .error _ => isFalse (by intro hh; exact Except.noConfusion hh)

/-- Python dict assignment `m[k] = v`: overwrite in place if the key is
present (keeping its position), otherwise append the new entry. -/
def dictInsert {κ α : Type} [DecidableEq κ] (m : List (κ × α)) (k : κ) (v : α) :
    List (κ × α) :=
  if (alookup m k).isSome then
    m.map (fun p => (p.1, if p.1 = k then v else p.2))
  else
    m ++ [(k, v)]

/-- Python dict-literal merge `{**e, **n}`: every key of `e` keeps its
position but takes `n`'s value when `n` also has the key; keys of `n`
absent from `e` follow.  Embeds line 227 of
`ingest_flat_series_incremental.py`. -/
def dictUnion {κ α : Type} [DecidableEq κ] (e n : List (κ × α)) : List (κ × α) :=
  e.map (fun p => (p.1, (alookup n p.1).getD p.2))
  ++ n.filter (fun p => (alookup e p.1).isNone)

/-- Deduplicate, keeping each element's first occurrence. -/
def dedupFirst {κ : Type} [DecidableEq κ] : List κ → List κ
  | [] => []
  | k :: ks => k :: (dedupFirst ks).filter (fun x => x ≠ k)

/-- The distinct keys of a dict, in first-occurrence order
(`dict.keys()` / `set(dict.keys())`). -/
def dictKeys {κ α : Type} [DecidableEq κ] (m : List (κ × α)) : List κ :=
  dedupFirst (m.map Prod.fst)

/-- A series' `values` mapping: canonical period string → observation. -/
abbrev ValMap := List (String × Rat)

/-- Metadata is carried as an opaque string-keyed dictionary.  The scripts
only ever copy it around and overlay a few scalar fields; no claim
inspects structured metadata entries (`row_sample`, `vintage_comparison`,
SIDRA components), so those overlays are represented by their
string-valued counterparts below. -/
abbrev Meta := List (String × String)

/-- Lexicographic (code-point) order on strings, as used by Python's
`sorted` and string `<=` on the canonical `YYYY-MM-DD` period keys. -/
def lexLe : List Char → List Char → Bool
  | [], _ => true
  | _ :: _, [] => false
  | a :: as, b :: bs =>
    if a.toNat < b.toNat then true
    else if a.toNat = b.toNat then lexLe as bs
    else false

/-- String comparison `s <= t` by code points (Python string order). -/
def strLe (s t : String) : Bool := lexLe s.toList t.toList

/-- Insert into an ascending list, keeping it ascending. -/
def insertSorted (x : String) : List String → List String
  | [] => [x]
  | y :: ys => if strLe x y then x :: y :: ys else y :: insertSorted x ys

/-- Model of `sorted(...)` on strings: ascending code-point order. -/
def sortStrs (l : List String) : List String := l.foldr insertSorted []

/-- Relative tolerance used by `math.isclose(..., rel_tol=1e-9)`. -/
def relTol : Rat := 1 / 1000000000

/-- Model of `math.isclose(a, b, rel_tol=1e-9)` over the rationals:
`|a - b| <= max(rel_tol * max(|a|, |b|), 0.0)`, and the `max` with the
zero absolute tolerance is redundant since the first argument is
nonnegative. -/
def isclose (a b : Rat) : Bool := decide (|a - b| ≤ relTol * max |a| |b|)

/-- One entry of the `changed` list built by `compare_series`
(lines 68–74 of `ingest_flat_series_with_vintages.py`). -/
structure ChangeEntry where
  date : String
  old_value : Rat
  new_value : Rat
  change : Rat
  change_pct : Option Rat
deriving DecidableEq

/-- Result dictionary of `compare_series` (lines 78–84). -/
structure Comparison where
  added : List String
  removed : List String
  changed : List ChangeEntry
  unchanged_count : Nat
  total_changes : Nat
deriving DecidableEq

/-- Embedding of `compare_series(old_values, new_values)`
(lines 42–84 of `ingest_flat_series_with_vintages.py`).
`added`/`removed` are the sorted set differences of the key sets; every
common key is classified `changed` exactly when `math.isclose` fails,
recording delta and percentage delta (`None` on a zero old value). -/
def compare_series (old_values new_values : ValMap) : Comparison :=
  let old_dates := dictKeys old_values
  let new_dates := dictKeys new_values
  let added := sortStrs (new_dates.filter (fun d => ¬ d ∈ old_dates))
  let removed := sortStrs (old_dates.filter (fun d => ¬ d ∈ new_dates))
  let common := old_dates.filter (fun d => d ∈ new_dates)
  let changed := (common.filter (fun d =>
      ¬ isclose ((alookup old_values d).getD 0) ((alookup new_values d).getD 0))).map
    (fun d =>
      let old_val := (alookup old_values d).getD 0
      let new_val := (alookup new_values d).getD 0
      { date := d
        old_value := old_val
        new_value := new_val
        change := new_val - old_val
        change_pct := if old_val ≠ 0 then some ((new_val - old_val) / old_val * 100) else none })
  let unchanged := common.filter (fun d =>
      isclose ((alookup old_values d).getD 0) ((alookup new_values d).getD 0))
  { added := added
    removed := removed
    changed := changed
    unchanged_count := unchanged.length
    total_changes := added.length + removed.length + changed.length }

/-! ## Dates and the incremental URL builder -/

/-- Numeric value of an ASCII digit character, `none` for non-digits. -/
def digit? (c : Char) : Option Nat :=
  if 48 ≤ c.toNat ∧ c.toNat ≤ 57 then some (c.toNat - 48) else none

/-- Gregorian leap-year rule, as validated by `datetime.strptime`. -/
def isLeap (y : Nat) : Bool := (y % 4 = 0 ∧ y % 100 ≠ 0) ∨ y % 400 = 0

/-- Number of days of month `m` of year `y`. -/
def daysInMonth (y m : Nat) : Nat :=
  if m = 2 then (if isLeap y then 29 else 28)
  else if m = 4 ∨ m = 6 ∨ m = 9 ∨ m = 11 then 30
  else 31

/-- A calendar date as (year, month, day). -/
abbrev Date := Nat × Nat × Nat

/-- Model of `datetime.strptime(s, "%Y-%m-%d")`, returning `none` where Python
raises `ValueError` (every caller wraps the call in `try/except`).
Restricted to the canonical fixed-width `YYYY-MM-DD` period keys the
pipeline produces; month and day ranges are validated like `strptime`
(including the leap-year rule for February). -/
def parseYMD (s : String) : Option Date :=
  match s.toList with
  | [a, b, c, d, h1, e, f, h2, g, i] =>
    match digit? a, digit? b, digit? c, digit? d,
          digit? e, digit? f, digit? g, digit? i with
    | some va, some vb, some vc, some vd, some ve, some vf, some vg, some vi =>
      if h1 = '-' ∧ h2 = '-' then
        let y := ((va * 10 + vb) * 10 + vc) * 10 + vd
        let mo := ve * 10 + vf
        let day := vg * 10 + vi
        if 1 ≤ mo ∧ mo ≤ 12 ∧ 1 ≤ day ∧ day ≤ daysInMonth y mo then
          some (y, mo, day)
        else none
      else none
    | _, _, _, _, _, _, _, _ => none
  | _ => none

/-- The `datetime` comparison `a <= b` on dates. -/
def dateLe (a b : Date) : Bool :=
  decide (a.1 < b.1 ∨ (a.1 = b.1 ∧
    (a.2.1 < b.2.1 ∨ (a.2.1 = b.2.1 ∧ a.2.2 ≤ b.2.2))))

/-- The month following month `m` of year `y`. -/
def nextMonth (y m : Nat) : Nat × Nat := if m = 12 then (y + 1, 1) else (y, m + 1)

/-- Model of `(last_dt + timedelta(days=32)).replace(day=1)` projected to its
(year, month): adding 32 days to a valid date always leaves its month, so
the result is the following month unless the 32 days overshoot it. -/
def add32day1 (y m day : Nat) : Nat × Nat :=
  let d2 := day + 32 - daysInMonth y m
  let q := nextMonth y m
  if d2 ≤ daysInMonth q.1 q.2 then q else nextMonth q.1 q.2

/-- Zero-pad the decimal representation of `n` to width `w`. -/
def padNum (w n : Nat) : String :=
  let s := toString n
  String.mk (List.replicate (w - s.length) '0') ++ s

/-- Model of `strftime("%Y%m")` on a (year, month) pair. -/
def fmtYM (ym : Nat × Nat) : String := padNum 4 ym.1 ++ padNum 2 ym.2

/-- Worker for `replaceAll`: while `skip > 0` the current character
belongs to the just-replaced occurrence and is dropped; at `skip = 0` a
fresh occurrence of `pat` is looked for at the current position. -/
def replaceAllAux (pat repl : List Char) : Nat → List Char → List Char
  | _, [] => []
  | skip + 1, _ :: cs => replaceAllAux pat repl skip cs
  | 0, c :: cs =>
    if pat.isPrefixOf (c :: cs) ∧ pat ≠ [] then
      repl ++ replaceAllAux pat repl (pat.length - 1) cs
    else
      c :: replaceAllAux pat repl 0 cs

/-- Python `str.replace(pat, repl)`: replace every non-overlapping
occurrence of `pat`, scanning left to right (`pat` nonempty). -/
def replaceAll (pat repl l : List Char) : List Char := replaceAllAux pat repl 0 l

/-- Model of `re.sub(r'/p/[^/]+', repl, ...)`: replace every maximal
`/p/<non-slash-run>` segment, scanning left to right (a match needs at
least one non-slash character after `/p/`); the greedy match swallows the
whole non-slash run, so the scan resumes at the next `/` (or the end). -/
def subPeriodParam (repl : List Char) : List Char → List Char
  | '/' :: 'p' :: '/' :: c4 :: rest =>
    if c4 ≠ '/' then
      repl ++ subPeriodParam repl (rest.dropWhile (fun x => x ≠ '/'))
    else
      '/' :: subPeriodParam repl ('p' :: '/' :: c4 :: rest)
  | c :: cs => c :: subPeriodParam repl cs
  | [] => []
termination_by l => l.length
decreasing_by
  · have h := List.Sublist.length_le
      (List.dropWhile_sublist (p := fun x => decide (x ≠ '/')) (l := rest))
    simp only [List.length_cons]
    omega
  · simp
  · simp

/-- Python substring test `pat in s`. -/
def strContains (s pat : String) : Bool := decide (pat.toList <:+: s.toList)

/-- Does `pat` occur (as a contiguous run) anywhere in `l`?  Specification
device used to state where `replaceAll` leaves text unchanged. -/
def occursIn (pat : List Char) : List Char → Bool
  | [] => pat.isPrefixOf []
  | c :: cs => pat.isPrefixOf (c :: cs) || occursIn pat cs

/-- Does no occurrence of `pat` start inside `a` when `a` is followed by
`tail`?  Specification device for the unique-occurrence split of
`replaceAll`. -/
def noStartIn (pat : List Char) : List Char → List Char → Bool
  | [], _ => true
  | c :: cs, tail => !pat.isPrefixOf (c :: (cs ++ tail)) && noStartIn pat cs tail

/-- Does the regex `/p/[^/]+` match anywhere in `l`?  Specification
device used to state where the substitution leaves text unchanged. -/
def hasPMatch : List Char → Bool
  | '/' :: 'p' :: '/' :: c4 :: rest =>
    (!(c4 = '/')) || hasPMatch ('p' :: '/' :: c4 :: rest)
  | _ :: cs => hasPMatch cs
  | [] => false

/-- Does the regex `/p/[^/]+` match at the very start of `l`? -/
def isPMatchStart : List Char → Bool
  | '/' :: 'p' :: '/' :: c4 :: _ => !(c4 = '/')
  | _ => false

/-- Does no match of `/p/[^/]+` start inside `a` when `a` is followed by
`tail`?  Specification device for the unique-occurrence split of the
substitution. -/
def noPStartIn : List Char → List Char → Bool
  | [], _ => true
  | c :: cs, tail => !isPMatchStart (c :: (cs ++ tail)) && noPStartIn cs tail

/-- Embedding of `build_incremental_api_url(base_url, last_date)`
(lines 60–108 of `ingest_flat_series_incremental.py`), with
`datetime.now()`'s (year, month) supplied as `nowYM`.  With no last date,
or an unparsable one (the `try/except` fallback), the URL is returned
unchanged; otherwise the SIDRA period parameter is rewritten to the range
`{YYYYMM of the month after last_date}-{YYYYMM of now}`, replacing
`/p/all` literally when present and any other `/p/...` segment via the
regex substitution. -/
def build_incremental_api_url (base_url : String) (last_date : Option String)
    (nowYM : Nat × Nat) : String :=
  match last_date with
  | none => base_url
  | some d =>
    match parseYMD d with
    | none => base_url
    | some (y, m, day) =>
      let start_period := fmtYM (add32day1 y m day)
      let end_period := fmtYM nowYM
      let newParam := "/p/" ++ start_period ++ "-" ++ end_period
      if strContains base_url "/p/all" then
        ⟨replaceAll "/p/all".toList newParam.toList base_url.toList⟩
      else if strContains base_url "/p/" then
        ⟨subPeriodParam newParam.toList base_url.toList⟩
      else
        base_url

/-! ## The document store and the catalog record -/

/-- The live record stored at `flat_series/{px_code}`: a `values` map and
a metadata dictionary. -/
structure SeriesRecord where
  values : ValMap
  metadata : Meta
deriving DecidableEq

/-- One archived vintage entry
(`flat_series/{px_code}/vintages/{vintage_key}`). -/
structure Vintage where
  timestamp : String
  values : ValMap
  metadata_snapshot : Meta
deriving DecidableEq

/-- The Firebase subtree the two scripts touch: the live record per
px code, and the append-only collection of vintage entries, kept here as
a flat list of (px code, entry) pairs in write order (each entry's key is
derived from its timestamp and never overwritten). -/
structure Store where
  live : List (String × SeriesRecord)
  vintages : List (String × Vintage)
deriving DecidableEq

/-- Replace-or-create the live record of `px_code` (`ref.set(payload)`). -/
def setLive (s : Store) (px_code : String) (payload : SeriesRecord) : Store :=
  { s with live := dictInsert s.live px_code payload }

/-- Embedding of `save_vintage(px_code, values, metadata)`
(lines 87–97 of `ingest_flat_series_with_vintages.py`): append one
immutable vintage entry holding the given snapshot, keyed by the current
timestamp. -/
def save_vintage (s : Store) (px_code : String) (timestamp : String)
    (values : ValMap) (metadata : Meta) : Store :=
  { s with vintages := s.vintages ++ [(px_code, ⟨timestamp, values, metadata⟩)] }

/-- The vintage entries stored for one px code. -/
def vintagesFor (s : Store) (px_code : String) : List Vintage :=
  (s.vintages.filter (fun q => q.1 = px_code)).map Prod.snd

/-- One catalog entry (`record` dict) as consumed by both scripts. -/
structure RecordInfo where
  px_code : String
  branch : String
  dataset : String
  label : String
  general_name : String
  api_url : String
deriving DecidableEq

/-- The metadata dictionary both scripts build for the written payload:
the existing metadata overlaid with the refreshed catalog fields and the
`last_updated` timestamp.  The fields taken from
`parse_sidra_components` (a module outside the embedded core) and the
structured `row_sample`/`vintage_comparison` entries are diagnostic
only — no claim depends on them — and are not modelled. -/
def payloadMetadata (existing : Meta) (rec : RecordInfo) (now : String) : Meta :=
  let m1 := dictInsert existing "branch" rec.branch
  let m2 := dictInsert m1 "dataset" rec.dataset
  let m3 := dictInsert m2 "label" rec.label
  let m4 := dictInsert m3 "general_name" rec.general_name
  let m5 := dictInsert m4 "api_url" rec.api_url
  let m6 := dictInsert m5 "px_code" rec.px_code
  dictInsert m6 "last_updated" now

/-! ## The incremental updater (`ingest_flat_series_incremental.py`) -/

/-- Environment of one incremental update: whether the checkpoint read
raises, the remote's (already period-normalized) observations per
requested URL — or a fetch error — and the wall clock.  The rows stand
for the observations surviving the per-row numeric parsing and period
normalization of `fetch_incremental_series_data` (placeholder and
unparsable rows are already dropped there); the period ≤ `last_date`
filter, which the claims are about, is modelled explicitly below. -/
structure IncEnv where
  readFails : Bool
  response : String → Except String (List (String × Rat))
  nowYM : Nat × Nat
  nowIso : String

/-- Embedding of `get_last_date_from_firebase(px_code)`
(lines 40–57 of `ingest_flat_series_incremental.py`): `None` when the
store read raises, when no record exists, or when its `values` mapping is
missing or empty; otherwise the last key of `sorted(values.keys())`. -/
def get_last_date_from_firebase (store : Store) (readFails : Bool)
    (px_code : String) : Option String :=
  if readFails then none
  else
    match alookup store.live px_code with
    | none => none
    | some data =>
      if data.values = [] then none
      else (sortStrs (dictKeys data.values)).getLast?

/-- The skip test of lines 169–175: an observation is dropped exactly
when the last date parsed (`last_dt` is set) and the observation's period
parses and is `<=` that date; either parse failing keeps the row. -/
def skipAsOld (last_dt : Option Date) (period : String) : Bool :=
  match last_dt, parseYMD period with
  | some ld, some pd => dateLe pd ld
  | _, _ => false

/-- Build a dict from rows in iteration order (`new_values[p] = v`):
later rows overwrite earlier ones. -/
def dictOfRows (rows : List (String × Rat)) : ValMap :=
  rows.foldl (fun m pv => dictInsert m pv.1 pv.2) []

/-- Embedding of `fetch_incremental_series_data(api_url, last_date)`
(lines 111–192 of `ingest_flat_series_incremental.py`): request the URL
built by `build_incremental_api_url`, and keep only observations not
skipped by the `last_date` filter.  Returns the kept values together
with the URL actually requested (the observable HTTP effect); the
metadata snapshot taken from the first row is diagnostic only and not
modelled. -/
def fetch_incremental_series_data (env : IncEnv) (api_url : String)
    (last_date : Option String) : Except String (ValMap × String) :=
  let incremental_url := build_incremental_api_url api_url last_date env.nowYM
  match env.response incremental_url with
  | .error e => .error e
  | .ok rows =>
    let last_dt := last_date.bind parseYMD
    .ok (dictOfRows (rows.filter (fun pv => ¬ skipAsOld last_dt pv.1)), incremental_url)

/-- Outcome message of one incremental update, one constructor per
format string returned by `update_record_incremental`. -/
inductive IncMessage where
  /-- Message `"SIDRA fetch failed: {exc}"` (returned with `ok = False`). -/
  | fetchFailed (e : String)
  /-- Message `"No new data (last: ...)"`. -/
  | noNewData (last : Option String)
  /-- Message `"Dry-run: {n} new points since ..."`. -/
  | dryRun (newPoints : Nat) (last : Option String)
  /-- Message `"Updated: +{n} new points (total: {t})"`. -/
  | updated (newPoints total : Nat)
deriving DecidableEq

/-- Result of one incremental per-record update: the store afterwards and
the `(ok, message)` pair. -/
structure IncResult where
  store : Store
  ok : Bool
  message : IncMessage
deriving DecidableEq

/-- Embedding of `update_record_incremental(record, dry_run)`
(lines 195–252 of `ingest_flat_series_incremental.py`): read the
checkpoint, fetch only newer data, and on a nonempty result merge it over
the existing values (`{**existing_values, **new_values}`) and overwrite
the live record.  An empty result reports success without touching the
store; `dry_run` returns after the fetch.  Store reads and the live
write outside `get_last_date_from_firebase` are modelled as succeeding —
their failure modes are outside every claim. -/
def update_record_incremental (store : Store) (env : IncEnv)
    (record : RecordInfo) (dry_run : Bool) : IncResult :=
  let last_date := get_last_date_from_firebase store env.readFails record.px_code
  match fetch_incremental_series_data env record.api_url last_date with
  | .error e => ⟨store, false, .fetchFailed e⟩
  | .ok (new_values, _) =>
    if new_values = [] then ⟨store, true, .noNewData last_date⟩
    else if dry_run then ⟨store, true, .dryRun new_values.length last_date⟩
    else
      let existing_data := (alookup store.live record.px_code).getD ⟨[], []⟩
      let merged_values := dictUnion existing_data.values new_values
      let payload : SeriesRecord :=
        ⟨merged_values, payloadMetadata existing_data.metadata record env.nowIso⟩
      ⟨setLive store record.px_code payload, true,
        .updated new_values.length merged_values.length⟩

/-! ## The vintage-aware full refresh (`ingest_flat_series_with_vintages.py`) -/

/-- Environment of one full-refresh update: the outcome of
`fetch_series_data(api_url)` (a full-history fetch, already
period-normalized, with its first-row metadata snapshot), whether the
vintage archive write raises (and with what message), and the wall
clock. -/
structure VinEnv where
  fetchResult : Except String (ValMap × Meta)
  vintageWriteError : Option String
  now : String

/-- Outcome message of one full-refresh update, one constructor per
format string returned by `ingest_record_with_vintages`. -/
inductive VinMessage where
  /-- Message `"SIDRA fetch failed: {exc}"` (returned with `ok = False`). -/
  | fetchFailed (e : String)
  /-- Message `"No data returned from SIDRA"` (returned with `ok = False`). -/
  | noData
  /-- Message `"Dry-run: {n} points, {c} changes detected"`, plus
  `" ({r} revisions)"` when `r > 0`. -/
  | dryRunCompared (points totalChanges revisions : Nat)
  /-- Message `"Dry-run: {n} points (first ingestion)"`. -/
  | dryRunFirst (points : Nat)
  /-- Message `"First ingestion: {n} points"`. -/
  | firstIngestion (points : Nat)
  /-- Message `"Updated: ... (vintage saved)"` with the added/removed/revised
  counts that make up the summary. -/
  | updated (added removed revised : Nat)
  /-- Message `"No changes: {n} points (unchanged)"`. -/
  | noChanges (points : Nat)
deriving DecidableEq

/-- Embedding of `ingest_record_with_vintages(record, dry_run)`
(lines 100–185 of `ingest_flat_series_with_vintages.py`): fetch the full
series, compare it with the stored one when prior values exist, archive
the pre-update snapshot as a vintage when the comparison found changes
(and this is not a dry run), and overwrite the live record.  The result
is the store afterwards and either the `(ok, message)` pair or — since
`save_vintage` is *not* wrapped in any `try/except` — the uncaught
exception raised by a failing vintage write. -/
def ingest_record_with_vintages (store : Store) (env : VinEnv)
    (record : RecordInfo) (dry_run : Bool) :
    Store × Except String (Bool × VinMessage) :=
  match env.fetchResult with
  | .error e => (store, .ok (false, .fetchFailed e))
  | .ok (new_values, _row_meta) =>
    if new_values = [] then (store, .ok (false, .noData))
    else
      let existing_data := (alookup store.live record.px_code).getD ⟨[], []⟩
      let old_values := existing_data.values
      let has_changes :=
        if old_values = [] then false
        else (compare_series old_values new_values).total_changes > 0
      let afterVintage : Except String Store :=
        if has_changes ∧ dry_run = false then
          match env.vintageWriteError with
          | some e => .error e
          | none =>
            .ok (save_vintage store record.px_code env.now old_values
              existing_data.metadata)
        else .ok store
      match afterVintage with
      | .error e => (store, .error e)
      | .ok store1 =>
        if dry_run then
          (store1, .ok (true,
            if old_values = [] then .dryRunFirst new_values.length
            else
              let c := compare_series old_values new_values
              .dryRunCompared new_values.length c.total_changes c.changed.length))
        else
          let payload : SeriesRecord :=
            ⟨new_values, payloadMetadata existing_data.metadata record env.now⟩
          let store2 := setLive store1 record.px_code payload
          if old_values = [] then
            (store2, .ok (true, .firstIngestion new_values.length))
          else
            let c := compare_series old_values new_values
            if c.total_changes > 0 then
              (store2, .ok (true,
                .updated c.added.length c.removed.length c.changed.length))
            else
              (store2, .ok (true, .noChanges new_values.length))

/-! ## Batch orchestration and the failure-log artifact -/

/-- Render a `VinMessage` to the exact message string the script builds. -/
def vinMessageText : VinMessage → String
  | .fetchFailed e => "SIDRA fetch failed: " ++ e
  | .noData => "No data returned from SIDRA"
  | .dryRunCompared n c r =>
    "Dry-run: " ++ toString n ++ " points, " ++ toString c ++ " changes detected"
      ++ (if r > 0 then " (" ++ toString r ++ " revisions)" else "")
  | .dryRunFirst n => "Dry-run: " ++ toString n ++ " points (first ingestion)"
  | .firstIngestion n => "First ingestion: " ++ toString n ++ " points"
  | .updated a r c =>
    let parts := (if a > 0 then ["+" ++ toString a ++ " new"] else [])
      ++ (if r > 0 then ["-" ++ toString r ++ " removed"] else [])
      ++ (if c > 0 then ["~" ++ toString c ++ " revised"] else [])
    "Updated: " ++ String.intercalate ", " parts ++ " (vintage saved)"
  | .noChanges n => "No changes: " ++ toString n ++ " points (unchanged)"

/-- One entry of the batch failure list `failed_records`
(lines 264–271 and 278–284 of `ingest_flat_series_with_vintages.py`). -/
structure FailedEntry where
  px_code : String
  label : String
  general_name : String
  api_url : String
  error : String
deriving DecidableEq

/-- The JSON failure-log artifact written at end of batch
(lines 308–315 of `ingest_flat_series_with_vintages.py`). -/
structure LogArtifact where
  dataset : String
  timestamp : String
  total_failed : Nat
  failed_records : List FailedEntry
deriving DecidableEq

/-- The per-record boundary `process_record` of the vintages script:
every uncaught exception is converted into a failed outcome whose error
text is the exception message; `(False, message)` results keep their
message. -/
def vinFailedEntry? (rec : RecordInfo)
    (res : Except String (Bool × VinMessage)) : Option FailedEntry :=
  match res with
  | .error e => some ⟨rec.px_code, rec.label, rec.general_name, rec.api_url, e⟩
  | .ok (false, msg) =>
    some ⟨rec.px_code, rec.label, rec.general_name, rec.api_url, vinMessageText msg⟩
  | .ok (true, _) => none

/-- The batch-level `failed_records` list accumulated by the vintages
script's `main` across all per-record outcomes (completion order does not
affect its contents; we keep submission order). -/
def vintages_failed_records
    (results : List (RecordInfo × Except String (Bool × VinMessage))) :
    List FailedEntry :=
  results.filterMap (fun p => vinFailedEntry? p.1 p.2)

/-- The failure-log write of the vintages script's `main`
(lines 307–316): a timestamped artifact holding the dataset, the run
timestamp, the failed count and the failure list — written only when at
least one record failed. -/
def vintages_failure_log (dataset timestamp : String)
    (results : List (RecordInfo × Except String (Bool × VinMessage))) :
    Option LogArtifact :=
  let failed := vintages_failed_records results
  if failed = [] then none
  else some ⟨dataset, timestamp, failed.length, failed⟩

/-- Summary counters of the incremental script's `main`
(lines 276–323 of `ingest_flat_series_incremental.py`) plus the list of
log artifacts it persists.  Its `process_record` classifies an outcome as
`no_update` when `ok` holds and the message is the no-new-data one, as
`success` on any other `ok` outcome, and as `failure` otherwise; `main`
maintains **no** failure list and writes **no** log file, so the list of
persisted artifacts is empty by construction. -/
structure IncBatchSummary where
  successes : Nat
  no_updates : Nat
  failures : Nat
  artifacts : List LogArtifact
deriving DecidableEq

/-- Classification tags used by the incremental `process_record`. -/
inductive IncTag where
  | success
  | no_update
  | failure
deriving DecidableEq

/-- Embedding of `process_record` of the incremental script (lines 281–297), given the
per-record result. -/
def incTag (r : IncResult) : IncTag :=
  if r.ok then
    match r.message with
    | .noNewData _ => .no_update
    | _ => .success
  else .failure

/-- The incremental script's whole batch aggregation: count the three
outcome classes; no failure log is produced. -/
def incremental_main_batch (results : List IncResult) : IncBatchSummary :=
  { successes := (results.filter (fun r => incTag r = .success)).length
    no_updates := (results.filter (fun r => incTag r = .no_update)).length
    failures := (results.filter (fun r => incTag r = .failure)).length
    artifacts := [] }

/-- The live `values` mapping stored for a px code (empty when no record
exists), the view both scripts start from. -/
def liveValues (store : Store) (px_code : String) : ValMap :=
  ((alookup store.live px_code).getD ⟨[], []⟩).values

/-- The live metadata stored for a px code (empty when no record
exists): `existing_data.get('metadata', {})`. -/
def liveMetadata (store : Store) (px_code : String) : Meta :=
  ((alookup store.live px_code).getD ⟨[], []⟩).metadata

/-! ## Concrete fixtures used by witness theorems -/

/-- A store holding one series `X1` with a single period. -/
def exStore1 : Store := ⟨[("X1", ⟨[("2024-01-01", 100)], []⟩)], []⟩

/-- A catalog record for series `X1` with a full-history SIDRA URL. -/
def exRec : RecordInfo := ⟨"X1", "br", "ds", "lb", "gn", "https://x/t/1/p/all/v/63"⟩

/-- An incremental environment whose remote returns one genuinely new
observation for every query. -/
def exEnvNew : IncEnv := ⟨false, fun _ => .ok [("2024-02-01", 5)], (2025, 10), "T"⟩

/-- An incremental environment whose remote only ever returns the one
observation that is already stored. -/
def exEnvOld : IncEnv := ⟨false, fun _ => .ok [("2024-01-01", 100)], (2025, 10), "T"⟩

/-- An incremental environment whose checkpoint read raises. -/
def exEnvReadFail : IncEnv :=
  ⟨true, fun _ => .ok [("2024-02-01", 5)], (2025, 10), "T"⟩

/-- An incremental environment whose remote ignores the bounded query and
over-returns full history: the stored period plus one new one. -/
def exEnvOver : IncEnv :=
  ⟨false, fun _ => .ok [("2024-01-01", 100), ("2024-02-01", 5)], (2025, 10), "T"⟩

/-- A full-refresh environment that fetches a revised value for the one
stored period and whose vintage archive write raises `"boom"`. -/
def exEnvBoom : VinEnv := ⟨.ok ([("2024-01-01", 101)], []), some "boom", "T3"⟩

/-- A full-refresh environment that fetches a revised value for the one
stored period, with all store writes succeeding. -/
def exEnvRev : VinEnv := ⟨.ok ([("2024-01-01", 101)], []), none, "T4"⟩

/-! # Helper lemmas -/

theorem alookup_append {κ α : Type} [DecidableEq κ] (l₁ l₂ : List (κ × α)) (k : κ) :
    alookup (l₁ ++ l₂) k = optOr (alookup l₁ k) (alookup l₂ k) := by
  induction l₁ with
  | nil => simp [alookup, optOr]
  | cons p l ih =>
    obtain ⟨k', v'⟩ := p
    by_cases h : k = k' <;> simp [alookup, optOr, h, ih]

theorem alookup_map_override {κ α : Type} [DecidableEq κ]
    (e n : List (κ × α)) (k : κ) :
    alookup (e.map (fun p => (p.1, (alookup n p.1).getD p.2))) k =
      (alookup e k).map (fun v => (alookup n k).getD v) := by
  induction e with
  | nil => simp [alookup]
  | cons p l ih =>
    obtain ⟨k', v'⟩ := p
    by_cases h : k = k' <;> simp [alookup, h, ih]

theorem alookup_filter_notin {κ α : Type} [DecidableEq κ]
    (e n : List (κ × α)) (k : κ) :
    alookup (n.filter (fun p => (alookup e p.1).isNone)) k =
      if (alookup e k).isNone then alookup n k else none := by
  induction n with
  | nil => simp [alookup]
  | cons p l ih =>
    obtain ⟨k', v'⟩ := p
    by_cases h : k = k'
    · subst h
      by_cases he : (alookup e k).isNone <;> simp [alookup, he, ih]
    · by_cases he : (alookup e k').isNone <;> simp [alookup, h, he, ih]

theorem alookup_dictUnion {κ α : Type} [DecidableEq κ]
    (e n : List (κ × α)) (k : κ) :
    alookup (dictUnion e n) k = optOr (alookup n k) (alookup e k) := by
  unfold dictUnion
  rw [alookup_append, alookup_map_override, alookup_filter_notin]
  cases he : alookup e k <;> cases hn : alookup n k <;> simp [optOr, he, hn]

theorem alookup_map_setkey {κ α : Type} [DecidableEq κ]
    (m : List (κ × α)) (k : κ) (v : α) (q : κ) :
    alookup (m.map (fun p => (p.1, if p.1 = k then v else p.2))) q =
      match alookup m q with
      | some w => some (if q = k then v else w)
      | none => none := by
  induction m with
  | nil => simp [alookup]
  | cons p l ih =>
    obtain ⟨k', v'⟩ := p
    by_cases h2 : q = k'
    · subst h2
      simp [alookup]
    · simp [alookup, h2, ih]

theorem alookup_dictInsert {κ α : Type} [DecidableEq κ]
    (m : List (κ × α)) (k : κ) (v : α) (q : κ) :
    alookup (dictInsert m k v) q = if q = k then some v else alookup m q := by
  unfold dictInsert
  by_cases hk : (alookup m k).isSome
  · rw [if_pos hk, alookup_map_setkey]
    cases hmq : alookup m q with
    | some w => by_cases hqk : q = k <;> simp [hqk]
    | none =>
      have hqk : q ≠ k := by
        intro h
        subst h
        rw [hmq] at hk
        simp at hk
      simp [hqk]
  · rw [if_neg hk, alookup_append]
    cases hmq : alookup m q with
    | some w =>
      have hqk : q ≠ k := by
        intro h
        rw [h] at hmq
        rw [hmq] at hk
        simp at hk
      simp [optOr, hmq, hqk]
    | none => by_cases hqk : q = k <;> simp [alookup, optOr, hmq, hqk]

theorem liveValues_setLive (store : Store) (px : String) (payload : SeriesRecord) :
    liveValues (setLive store px payload) px = payload.values := by
  simp [liveValues, setLive, alookup_dictInsert]

theorem mem_dedupFirst {κ : Type} [DecidableEq κ] (l : List κ) (x : κ) :
    x ∈ dedupFirst l ↔ x ∈ l := by
  induction l with
  | nil => simp [dedupFirst]
  | cons k ks ih => by_cases h : x = k <;> simp [dedupFirst, List.mem_filter, h, ih]

theorem mem_dictKeys {κ α : Type} [DecidableEq κ] (m : List (κ × α)) (k : κ) :
    k ∈ dictKeys m ↔ (alookup m k).isSome := by
  rw [dictKeys, mem_dedupFirst]
  induction m with
  | nil => simp [alookup]
  | cons p l ih =>
    obtain ⟨k', v'⟩ := p
    by_cases h : k = k' <;> simp [alookup, h, ih]

theorem alookup_eq_some_getD {κ α : Type} [DecidableEq κ]
    (m : List (κ × α)) (k : κ) (d : α) (h : (alookup m k).isSome) :
    alookup m k = some ((alookup m k).getD d) := by
  cases hm : alookup m k with
  | none => rw [hm] at h; simp at h
  | some v => simp

/-! # Claim theorems -/

/-- Claim C2 — Merge correctness of the incremental updater: the post-merge
map equals the existing map updated by the fetched map.  (1) On every key
the merged map `{**e, **n}` takes `n`'s value when present and `e`'s
otherwise; (2) hence no key of `e` is lost; (3) an incremental update
never drops a period key that was stored before it ran, on any path; and
(4) on the write path the stored live values are exactly the merge of the
previously stored values with the fetched new values. -/
theorem incremental_merge_correctness :
    (∀ (e n : ValMap) (k : String),
      alookup (dictUnion e n) k = optOr (alookup n k) (alookup e k))
    ∧ (∀ (e n : ValMap) (k : String),
        (alookup e k).isSome → (alookup (dictUnion e n) k).isSome)
    ∧ (∀ (store : Store) (env : IncEnv) (record : RecordInfo) (dry : Bool)
        (k : String), (alookup (liveValues store record.px_code) k).isSome →
        (alookup
          (liveValues (update_record_incremental store env record dry).store
            record.px_code) k).isSome)
    ∧ (∀ (store : Store) (env : IncEnv) (record : RecordInfo)
        (nv : ValMap) (u : String),
        fetch_incremental_series_data env record.api_url
          (get_last_date_from_firebase store env.readFails record.px_code)
          = .ok (nv, u) →
        nv ≠ [] →
        liveValues (update_record_incremental store env record false).store
          record.px_code = dictUnion (liveValues store record.px_code) nv) := by
  have hkeep : ∀ (e n : ValMap) (k : String),
      (alookup e k).isSome → (alookup (dictUnion e n) k).isSome := by
    intro e n k h
    rw [alookup_dictUnion]
    cases hn : alookup n k with
    | some v => simp [optOr]
    | none => simpa [optOr] using h
  refine ⟨fun e n k => alookup_dictUnion e n k, hkeep, ?_, ?_⟩
  · intro store env record dry k h
    simp only [update_record_incremental]
    cases hf : fetch_incremental_series_data env record.api_url
        (get_last_date_from_firebase store env.readFails record.px_code) with
    | error e => simpa using h
    | ok p =>
      obtain ⟨nv, u⟩ := p
      by_cases hnv : nv = []
      · simpa [hnv] using h
      · by_cases hd : dry = true
        · simpa [hnv, hd] using h
        · simp only [Bool.not_eq_true] at hd
          simp only [hnv, hd, if_false, if_neg hnv, Bool.false_eq_true]
          rw [liveValues_setLive]
          exact hkeep _ _ _ h
  · intro store env record nv u hf hnv
    simp only [update_record_incremental]
    rw [hf]
    simp only [hnv, if_neg hnv, Bool.false_eq_true, if_false]
    rw [liveValues_setLive]
    rfl

/-- Witness for claim C2: concrete instances of the key-preservation
statement and the write-path equation, with every hypothesis discharged
on concrete input. -/
theorem incremental_merge_correctness_witness :
    (alookup (dictUnion [("2024-01-01", (100 : Rat))] [("2024-02-01", 5)])
      "2024-01-01").isSome
    ∧ liveValues (update_record_incremental exStore1 exEnvNew exRec false).store
        "X1" = dictUnion [("2024-01-01", 100)] [("2024-02-01", 5)] := by
  constructor
  · exact incremental_merge_correctness.2.1 _ _ _ (by decide)
  · exact incremental_merge_correctness.2.2.2 exStore1 exEnvNew exRec
      [("2024-02-01", 5)] "https://x/t/1/p/202402-202510/v/63" (by decide)
      (by decide)

/-- Claim C6 — Change classification of the comparator: every entry of
`changed` records a period present in both maps whose values differ
beyond the relative tolerance, with `change = new - old`, `change_pct`
equal to `None` exactly on a zero old value and `(new-old)/old*100`
otherwise; conversely a common period yields a `changed` entry exactly
when the tolerance test fails, and the test is `|old - new|` exceeding
the relative tolerance, not exact equality. -/
theorem compare_changed_classification :
    (∀ (old_values new_values : ValMap) (e : ChangeEntry),
      e ∈ (compare_series old_values new_values).changed →
      alookup old_values e.date = some e.old_value
      ∧ alookup new_values e.date = some e.new_value
      ∧ isclose e.old_value e.new_value = false
      ∧ e.change = e.new_value - e.old_value
      ∧ (e.old_value = 0 → e.change_pct = none)
      ∧ (e.old_value ≠ 0 →
          e.change_pct = some ((e.new_value - e.old_value) / e.old_value * 100)))
    ∧ (∀ (old_values new_values : ValMap) (d : String) (ov nv : Rat),
        alookup old_values d = some ov → alookup new_values d = some nv →
        ((∃ e ∈ (compare_series old_values new_values).changed, e.date = d)
          ↔ isclose ov nv = false))
    ∧ (∀ a b : Rat, isclose a b = false ↔ relTol * max |a| |b| < |a - b|) := by
  have h1 : ∀ (old_values new_values : ValMap) (e : ChangeEntry),
      e ∈ (compare_series old_values new_values).changed →
      alookup old_values e.date = some e.old_value
      ∧ alookup new_values e.date = some e.new_value
      ∧ isclose e.old_value e.new_value = false
      ∧ e.change = e.new_value - e.old_value
      ∧ (e.old_value = 0 → e.change_pct = none)
      ∧ (e.old_value ≠ 0 →
          e.change_pct = some ((e.new_value - e.old_value) / e.old_value * 100)) := by
    intro old_values new_values e he
    simp only [compare_series, List.mem_map, List.mem_filter,
      decide_eq_true_eq, mem_dictKeys] at he
    obtain ⟨d, ⟨⟨ho, hn⟩, hcl⟩, hmk⟩ := he
    subst hmk
    refine ⟨alookup_eq_some_getD old_values d 0 ho,
      alookup_eq_some_getD new_values d 0 hn, by simpa using hcl, rfl, ?_, ?_⟩
    · intro hz
      replace hz : (alookup old_values d).getD 0 = 0 := hz
      simp [hz]
    · intro hz
      replace hz : (alookup old_values d).getD 0 ≠ 0 := hz
      simp [hz]
  refine ⟨h1, ?_, ?_⟩
  · intro old_values new_values d ov nv ho hn
    constructor
    · rintro ⟨e, he, hdate⟩
      obtain ⟨ho', hn', hcl, -, -, -⟩ := h1 _ _ _ he
      rw [hdate] at ho' hn'
      rw [ho] at ho'
      rw [hn] at hn'
      cases ho'
      cases hn'
      exact hcl
    · intro hcl
      refine ⟨⟨d, (alookup old_values d).getD 0, (alookup new_values d).getD 0,
        (alookup new_values d).getD 0 - (alookup old_values d).getD 0,
        if (alookup old_values d).getD 0 ≠ 0 then
          some (((alookup new_values d).getD 0 - (alookup old_values d).getD 0)
            / (alookup old_values d).getD 0 * 100)
        else none⟩, ?_, rfl⟩
      simp only [compare_series, List.mem_map, List.mem_filter,
        decide_eq_true_eq, mem_dictKeys]
      refine ⟨d, ⟨⟨by simp [ho], by simp [hn]⟩, ?_⟩, rfl⟩
      rw [ho, hn]
      simpa using hcl
  · intro a b
    simp [isclose, not_le]

/-- Witness for claim C6: the spec's worked example `old = 100`,
`new = 101` — the tolerance test fails and a `changed` entry for the
common period exists — with all hypotheses discharged concretely. -/
theorem compare_changed_classification_witness :
    (∃ e ∈ (compare_series [("2024-01-01", (100 : Rat))]
      [("2024-01-01", 101)]).changed, e.date = "2024-01-01")
    ∧ (isclose (100 : Rat) 101 = false) := by
  constructor
  · exact (compare_changed_classification.2.1
      [("2024-01-01", (100 : Rat))] [("2024-01-01", 101)] "2024-01-01" 100 101
      (by decide) (by decide)).mpr
      (by norm_num [isclose, relTol, abs, max_def])
  · exact (compare_changed_classification.2.2 100 101).mpr
      (by norm_num [relTol, abs, max_def])

theorem vintagesFor_setLive (s : Store) (px : String) (payload : SeriesRecord)
    (q : String) : vintagesFor (setLive s px payload) q = vintagesFor s q := rfl

theorem vintagesFor_save_vintage (s : Store) (px ts : String) (v : ValMap)
    (m : Meta) :
    vintagesFor (save_vintage s px ts v m) px = vintagesFor s px ++ [⟨ts, v, m⟩] := by
  simp [vintagesFor, save_vintage, List.filter_append]

theorem append_singleton_ne_self {α : Type} (l : List α) (x : α) :
    l ++ [x] ≠ l := by
  intro h
  have := congrArg List.length h
  simp at this

/-- Claim C1 (counterexample) — With one stored period `100`, a fetched
revision `101` and a vintage archive write that raises, the per-record
update does *not* proceed: the exception escapes
`ingest_record_with_vintages` uncaught (so the orchestrator records a
failure, not a success) and the live record keeps its old value instead
of being overwritten.  This contradicts the claim that the failure is
swallowed and the live update still succeeds. -/
theorem vintage_failure_swallowed_counterexample :
    (ingest_record_with_vintages exStore1 exEnvBoom exRec false).2 = .error "boom"
    ∧ liveValues (ingest_record_with_vintages exStore1 exEnvBoom exRec false).1
        "X1" = [("2024-01-01", 100)]
    ∧ ([("2024-01-01", (100 : Rat))] : ValMap) ≠ [("2024-01-01", 101)] := by
  refine ⟨?_, ?_, by decide⟩ <;>
    norm_num [ingest_record_with_vintages, compare_series, dictKeys, dedupFirst,
      sortStrs, insertSorted, alookup, isclose, relTol, abs, max_def, exEnvBoom,
      exStore1, exRec, liveValues]

/-- Claim C1 (amended) — When the full-refresh comparison detects changes
and the vintage archive write raises, the exception propagates out of the
per-record update (there is no `try/except` around `save_vintage`): the
store is left untouched — in particular the live record is *not*
overwritten — and the orchestrator's catch-all boundary converts the
escaped exception into a per-record failure entry. -/
theorem vintage_failure_aborts_update (store : Store) (env : VinEnv)
    (record : RecordInfo) (nv : ValMap) (rm : Meta) (e : String)
    (hf : env.fetchResult = .ok (nv, rm)) (hnv : nv ≠ [])
    (hold : liveValues store record.px_code ≠ [])
    (hch : (compare_series (liveValues store record.px_code) nv).total_changes > 0)
    (hw : env.vintageWriteError = some e) :
    ingest_record_with_vintages store env record false = (store, .error e)
    ∧ vinFailedEntry? record (ingest_record_with_vintages store env record false).2
        = some ⟨record.px_code, record.label, record.general_name,
            record.api_url, e⟩ := by
  have hmain : ingest_record_with_vintages store env record false
      = (store, .error e) := by
    simp only [ingest_record_with_vintages]
    rw [hf]
    simp only [hnv, if_neg hnv]
    have hold' : ¬ (((alookup store.live record.px_code).getD ⟨[], []⟩).values = []) :=
      hold
    simp only [hold', if_false, if_neg hold']
    rw [hw]
    have hch' : (compare_series
        ((alookup store.live record.px_code).getD ⟨[], []⟩).values
          nv).total_changes > 0 := hch
    rw [if_pos (And.intro (decide_eq_true hch') trivial)]
  exact ⟨hmain, by rw [hmain]; rfl⟩

/-- Witness for claim C1 (amended): the amended theorem applied at the
concrete revision-plus-failing-write input, every hypothesis discharged
there. -/
theorem vintage_failure_aborts_update_witness :
    ingest_record_with_vintages exStore1 exEnvBoom exRec false
      = (exStore1, .error "boom") := by
  exact (vintage_failure_aborts_update exStore1 exEnvBoom exRec
    [("2024-01-01", 101)] [] "boom" rfl (by decide) (by decide)
    (by norm_num [compare_series, dictKeys, dedupFirst, sortStrs, insertSorted,
      alookup, isclose, relTol, abs, max_def, exStore1, liveValues])
    rfl).1

/-- Claim C3 — A vintage is archived iff the full-refresh comparison of the
previously stored values against the fetched ones detects changes and the
run is not a dry run; the archived entry is exactly the pre-update
snapshot (old values and old metadata, keyed by the current timestamp).
On first-time ingestion (empty old values) no comparison is performed:
the outcome message is the first-ingestion one and no vintage is
written. -/
theorem vintage_written_iff_changes (store : Store) (env : VinEnv)
    (record : RecordInfo) (dry : Bool) (nv : ValMap) (rm : Meta)
    (hf : env.fetchResult = .ok (nv, rm)) (hnv : nv ≠ [])
    (hw : env.vintageWriteError = none) :
    (vintagesFor (ingest_record_with_vintages store env record dry).1
        record.px_code
      = vintagesFor store record.px_code
        ++ [⟨env.now, liveValues store record.px_code,
            liveMetadata store record.px_code⟩]
      ↔ (liveValues store record.px_code ≠ []
          ∧ (compare_series (liveValues store record.px_code) nv).total_changes > 0
          ∧ dry = false))
    ∧ (¬ (liveValues store record.px_code ≠ []
          ∧ (compare_series (liveValues store record.px_code) nv).total_changes > 0
          ∧ dry = false) →
        vintagesFor (ingest_record_with_vintages store env record dry).1
          record.px_code = vintagesFor store record.px_code)
    ∧ (liveValues store record.px_code = [] →
        (ingest_record_with_vintages store env record dry).2
          = .ok (true, if dry then .dryRunFirst nv.length
              else .firstIngestion nv.length)) := by
  simp only [liveValues, liveMetadata]
  simp only [ingest_record_with_vintages]
  rw [hf, hw]
  simp only [hnv, if_neg hnv]
  by_cases hold : ((alookup store.live record.px_code).getD ⟨[], []⟩).values = []
  · cases dry <;>
      simp [hold, vintagesFor_setLive, append_singleton_ne_self,
        fun x => (append_singleton_ne_self (vintagesFor store record.px_code) x).symm]
  · by_cases hch : (compare_series
        ((alookup store.live record.px_code).getD ⟨[], []⟩).values nv).total_changes > 0
    · cases dry <;>
        simp [hold, hch, vintagesFor_setLive, vintagesFor_save_vintage,
          fun x => (append_singleton_ne_self (vintagesFor store record.px_code) x).symm]
    · cases dry <;>
        simp [hold, hch, vintagesFor_setLive,
          fun x => (append_singleton_ne_self (vintagesFor store record.px_code) x).symm]

/-- Witness for claim C3: at the concrete revision (stored `100`, fetched
`101`, live run) a vintage holding exactly the pre-update snapshot is
archived; every hypothesis of the iff is discharged concretely. -/
theorem vintage_written_iff_changes_witness :
    vintagesFor (ingest_record_with_vintages exStore1 exEnvRev exRec false).1 "X1"
      = [⟨"T4", [("2024-01-01", 100)], []⟩] := by
  have h := (vintage_written_iff_changes exStore1 exEnvRev exRec false
    [("2024-01-01", 101)] [] rfl (by decide) rfl).1.mpr
    ⟨by decide,
     by norm_num [compare_series, dictKeys, dedupFirst, sortStrs, insertSorted,
       alookup, isclose, relTol, abs, max_def, exStore1, liveValues], rfl⟩
  rw [show exRec.px_code = "X1" from rfl] at h
  rw [h]
  rfl

/-- Claim C8 — Dry-run frame: with `dry_run` set, neither per-record update
writes anything to the store — the resulting store is the input store on
every path of both scripts — while the fetch and (on the full-refresh
path with prior data) the comparison still execute: the dry-run outcome
message carries the actual comparison's change counts. -/
theorem dry_run_no_store_writes :
    (∀ (store : Store) (env : VinEnv) (record : RecordInfo),
      (ingest_record_with_vintages store env record true).1 = store)
    ∧ (∀ (store : Store) (env : IncEnv) (record : RecordInfo),
        (update_record_incremental store env record true).store = store)
    ∧ (∀ (store : Store) (env : VinEnv) (record : RecordInfo) (nv : ValMap)
        (rm : Meta), env.fetchResult = .ok (nv, rm) → nv ≠ [] →
        liveValues store record.px_code ≠ [] →
        (ingest_record_with_vintages store env record true).2
          = .ok (true, .dryRunCompared nv.length
              (compare_series (liveValues store record.px_code) nv).total_changes
              (compare_series (liveValues store record.px_code) nv).changed.length)) := by
  refine ⟨?_, ?_, ?_⟩
  · intro store env record
    simp only [ingest_record_with_vintages]
    cases env.fetchResult with
    | error e => rfl
    | ok p =>
      obtain ⟨nv, rm⟩ := p
      by_cases hnv : nv = [] <;> simp [hnv]
  · intro store env record
    simp only [update_record_incremental]
    cases fetch_incremental_series_data env record.api_url
        (get_last_date_from_firebase store env.readFails record.px_code) with
    | error e => rfl
    | ok p =>
      obtain ⟨nv, u⟩ := p
      by_cases hnv : nv = [] <;> simp [hnv]
  · intro store env record nv rm hf hnv hold
    replace hold : ¬ (((alookup store.live record.px_code).getD ⟨[], []⟩).values
      = []) := hold
    simp only [ingest_record_with_vintages]
    rw [hf]
    simp [hnv, hold, liveValues]

/-- Witness for claim C8: the dry-run outcome at the concrete revision
input reports the comparison's one detected change and the store is
untouched; all hypotheses discharged concretely. -/
theorem dry_run_no_store_writes_witness :
    (ingest_record_with_vintages exStore1 exEnvRev exRec true).1 = exStore1
    ∧ (ingest_record_with_vintages exStore1 exEnvRev exRec true).2
        = .ok (true, .dryRunCompared 1
            (compare_series [("2024-01-01", 100)] [("2024-01-01", 101)]).total_changes
            (compare_series [("2024-01-01", 100)]
              [("2024-01-01", 101)]).changed.length) := by
  constructor
  · exact dry_run_no_store_writes.1 exStore1 exEnvRev exRec
  · exact dry_run_no_store_writes.2.2 exStore1 exEnvRev exRec
      [("2024-01-01", 101)] [] rfl (by decide) (by decide)

/-- Claim C7 — No-new-data idempotence: when every observation the remote
returns is skipped as not newer than the last stored period, the
incremental update succeeds with the no-new-data outcome and leaves the
store untouched; consequently running it a second time returns the very
same result — the stored values are byte-for-byte unchanged. -/
theorem incremental_no_new_data_idempotent (store : Store) (env : IncEnv)
    (record : RecordInfo) (dry : Bool) (rows : List (String × Rat))
    (hresp : env.response
      (build_incremental_api_url record.api_url
        (get_last_date_from_firebase store env.readFails record.px_code)
        env.nowYM) = .ok rows)
    (hall : ∀ pv ∈ rows,
      skipAsOld ((get_last_date_from_firebase store env.readFails
        record.px_code).bind parseYMD) pv.1 = true) :
    update_record_incremental store env record dry
      = ⟨store, true,
          .noNewData (get_last_date_from_firebase store env.readFails
            record.px_code)⟩
    ∧ update_record_incremental
        (update_record_incremental store env record dry).store env record dry
      = update_record_incremental store env record dry := by
  have hfetch : fetch_incremental_series_data env record.api_url
      (get_last_date_from_firebase store env.readFails record.px_code)
      = .ok ([], build_incremental_api_url record.api_url
          (get_last_date_from_firebase store env.readFails record.px_code)
          env.nowYM) := by
    simp only [fetch_incremental_series_data]
    rw [hresp]
    have hfil : rows.filter (fun pv => !skipAsOld
        ((get_last_date_from_firebase store env.readFails
          record.px_code).bind parseYMD) pv.1) = [] := by
      rw [List.filter_eq_nil_iff]
      intro pv hpv
      simp [hall pv hpv]
    simp [hfil, dictOfRows]
  have h1 : update_record_incremental store env record dry
      = ⟨store, true,
          .noNewData (get_last_date_from_firebase store env.readFails
            record.px_code)⟩ := by
    simp only [update_record_incremental]
    rw [hfetch]
    rfl
  refine ⟨h1, ?_⟩
  rw [h1]
  exact h1

/-- Witness for claim C7: a remote that only re-serves the already stored
period yields the no-new-data success twice in a row with the store
unchanged; hypotheses discharged concretely. -/
theorem incremental_no_new_data_idempotent_witness :
    update_record_incremental exStore1 exEnvOld exRec false
      = ⟨exStore1, true, .noNewData (some "2024-01-01")⟩
    ∧ update_record_incremental
        (update_record_incremental exStore1 exEnvOld exRec false).store
        exEnvOld exRec false
      = update_record_incremental exStore1 exEnvOld exRec false := by
  have h := incremental_no_new_data_idempotent exStore1 exEnvOld exRec false
    [("2024-01-01", 100)] (by decide) (by decide)
  exact ⟨h.1, h.2⟩

/-- Claim C10 — Reading the last stored period is total: when the store
read raises, the record is absent, or its values mapping is empty,
`get_last_date_from_firebase` returns `None` rather than raising; a
`None` checkpoint makes `build_incremental_api_url` return the original
full-history URL unchanged, and when the remote answers that URL the
per-record update reports success — never a failure caused by the
missing checkpoint. -/
theorem checkpoint_read_total (store : Store) (env : IncEnv)
    (record : RecordInfo) (dry : Bool) :
    (env.readFails = true →
      get_last_date_from_firebase store env.readFails record.px_code = none)
    ∧ (alookup store.live record.px_code = none →
        get_last_date_from_firebase store env.readFails record.px_code = none)
    ∧ (∀ data : SeriesRecord, alookup store.live record.px_code = some data →
        data.values = [] →
        get_last_date_from_firebase store env.readFails record.px_code = none)
    ∧ build_incremental_api_url record.api_url none env.nowYM = record.api_url
    ∧ (get_last_date_from_firebase store env.readFails record.px_code = none →
        ∀ rows : List (String × Rat), env.response record.api_url = .ok rows →
        (update_record_incremental store env record dry).ok = true) := by
  refine ⟨?_, ?_, ?_, rfl, ?_⟩
  · intro h
    simp [get_last_date_from_firebase, h]
  · intro h
    simp only [get_last_date_from_firebase, h]
    split <;> rfl
  · intro data hdata hvals
    simp only [get_last_date_from_firebase, hdata]
    split
    · rfl
    · simp [hvals]
  · intro hlast rows hrows
    simp only [update_record_incremental, fetch_incremental_series_data, hlast,
      build_incremental_api_url]
    rw [hrows]
    simp only [Option.bind]
    by_cases hnv : dictOfRows (rows.filter
        (fun pv => !skipAsOld none pv.1)) = []
    · simp [hnv]
    · by_cases hd : dry = true <;> simp [hnv, hd]

/-- Witness for claim C10: with a raising checkpoint read the last date is
`None` and the update still succeeds on the full-history answer;
hypotheses discharged concretely. -/
theorem checkpoint_read_total_witness :
    get_last_date_from_firebase exStore1 exEnvReadFail.readFails "X1" = none
    ∧ (update_record_incremental exStore1 exEnvReadFail exRec false).ok = true := by
  constructor
  · exact (checkpoint_read_total exStore1 exEnvReadFail exRec false).1 rfl
  · exact (checkpoint_read_total exStore1 exEnvReadFail exRec false).2.2.2.2
      (by decide) [("2024-02-01", 5)] (by decide)

theorem lexLe_nil : lexLe [] [] = true := rfl

theorem lexLe_cons (a b : Char) (as bs : List Char) :
    lexLe (a :: as) (b :: bs) = true ↔
      (a.toNat < b.toNat ∨ (a.toNat = b.toNat ∧ lexLe as bs = true)) := by
  by_cases h1 : a.toNat < b.toNat
  · simp [lexLe, h1]
  · by_cases h2 : a.toNat = b.toNat <;> simp [lexLe, h1, h2]

theorem digit?_eq_some (c : Char) (v : Nat) (h : digit? c = some v) :
    c.toNat = v + 48 ∧ v ≤ 9 := by
  unfold digit? at h
  split at h
  · next hr =>
    obtain ⟨h1, h2⟩ := hr
    injection h with h
    omega
  · exact absurd h (by simp)

theorem parseYMD_shape (s : String) (a : Date) (h : parseYMD s = some a) :
    ∃ (c0 c1 c2 c3 c5 c6 c8 c9 : Char) (v0 v1 v2 v3 v5 v6 v8 v9 : Nat),
      s.toList = [c0, c1, c2, c3, '-', c5, c6, '-', c8, c9]
      ∧ digit? c0 = some v0 ∧ digit? c1 = some v1 ∧ digit? c2 = some v2
      ∧ digit? c3 = some v3 ∧ digit? c5 = some v5 ∧ digit? c6 = some v6
      ∧ digit? c8 = some v8 ∧ digit? c9 = some v9
      ∧ a = (((v0 * 10 + v1) * 10 + v2) * 10 + v3, v5 * 10 + v6, v8 * 10 + v9)
      ∧ 1 ≤ v5 * 10 + v6 ∧ v5 * 10 + v6 ≤ 12 ∧ 1 ≤ v8 * 10 + v9
      ∧ v8 * 10 + v9
          ≤ daysInMonth (((v0 * 10 + v1) * 10 + v2) * 10 + v3) (v5 * 10 + v6) := by
  unfold parseYMD at h
  split at h
  · next c0 c1 c2 c3 h1 c5 c6 h2 c8 c9 heq =>
    split at h
    · next v0 v1 v2 v3 v5 v6 v8 v9 h0 hd1 hd2 hd3 hd5 hd6 hd8 hd9 =>
      split at h
      · next hdash =>
        dsimp only at h
        split at h
        · next hrange =>
          injection h with h
          exact ⟨c0, c1, c2, c3, c5, c6, c8, c9, v0, v1, v2, v3, v5, v6, v8, v9,
            by rw [heq, hdash.1, hdash.2], h0, hd1, hd2, hd3, hd5, hd6, hd8, hd9,
            h.symm, hrange.1, hrange.2.1, hrange.2.2.1, hrange.2.2.2⟩
        · exact absurd h (by simp)
      · exact absurd h (by simp)
    · exact absurd h (by simp)
  · exact absurd h (by simp)

/-- On canonical `YYYY-MM-DD` strings, Python's lexicographic string
order agrees with the `datetime` order of the parsed dates. -/
theorem strLe_iff_dateLe (p q : String) (a b : Date)
    (hp : parseYMD p = some a) (hq : parseYMD q = some b) :
    strLe p q = true ↔ dateLe a b = true := by
  obtain ⟨c0, c1, c2, c3, c5, c6, c8, c9, v0, v1, v2, v3, v5, v6, v8, v9,
    hpl, h0, h1, h2, h3, h5, h6, h8, h9, ha, -, -, -, -⟩ := parseYMD_shape p a hp
  obtain ⟨d0, d1, d2, d3, d5, d6, d8, d9, w0, w1, w2, w3, w5, w6, w8, w9,
    hql, g0, g1, g2, g3, g5, g6, g8, g9, hb, -, -, -, -⟩ := parseYMD_shape q b hq
  obtain ⟨e0, f0⟩ := digit?_eq_some _ _ h0
  obtain ⟨e1, f1⟩ := digit?_eq_some _ _ h1
  obtain ⟨e2, f2⟩ := digit?_eq_some _ _ h2
  obtain ⟨e3, f3⟩ := digit?_eq_some _ _ h3
  obtain ⟨e5, f5⟩ := digit?_eq_some _ _ h5
  obtain ⟨e6, f6⟩ := digit?_eq_some _ _ h6
  obtain ⟨e8, f8⟩ := digit?_eq_some _ _ h8
  obtain ⟨e9, f9⟩ := digit?_eq_some _ _ h9
  obtain ⟨e0', f0'⟩ := digit?_eq_some _ _ g0
  obtain ⟨e1', f1'⟩ := digit?_eq_some _ _ g1
  obtain ⟨e2', f2'⟩ := digit?_eq_some _ _ g2
  obtain ⟨e3', f3'⟩ := digit?_eq_some _ _ g3
  obtain ⟨e5', f5'⟩ := digit?_eq_some _ _ g5
  obtain ⟨e6', f6'⟩ := digit?_eq_some _ _ g6
  obtain ⟨e8', f8'⟩ := digit?_eq_some _ _ g8
  obtain ⟨e9', f9'⟩ := digit?_eq_some _ _ g9
  subst ha hb
  rw [strLe, hpl, hql]
  simp only [lexLe_cons, lexLe_nil, lt_irrefl, true_and, false_or, and_true,
    dateLe, decide_eq_true_eq]
  rw [e0, e1, e2, e3, e5, e6, e8, e9, e0', e1', e2', e3', e5', e6', e8', e9']
  constructor
  · intro h
    omega
  · intro h
    omega

theorem alookup_foldl_dictInsert (rows : List (String × Rat)) (m : ValMap)
    (p : String) (h : ∀ pv ∈ rows, pv.1 ≠ p) :
    alookup (rows.foldl (fun m pv => dictInsert m pv.1 pv.2) m) p
      = alookup m p := by
  induction rows generalizing m with
  | nil => rfl
  | cons pv rest ih =>
    simp only [List.foldl_cons]
    rw [ih _ (fun q hq => h q (List.mem_cons_of_mem _ hq)), alookup_dictInsert]
    exact if_neg (fun hh => h pv (List.mem_cons_self _ _) hh.symm)

theorem alookup_dictOfRows_none (rows : List (String × Rat)) (p : String)
    (h : ∀ pv ∈ rows, pv.1 ≠ p) : alookup (dictOfRows rows) p = none :=
  alookup_foldl_dictInsert rows [] p h

/-- Claim C4 — Incremental boundary: whatever the remote answers — even
full history — the filter of `fetch_incremental_series_data` excludes
from the new-values set every observation whose period is
lexicographically (equivalently, as a date) at or before the stored
`last_period`, which `get_last_date_from_firebase` computes as the last
key of the sorted stored period keys. -/
theorem incremental_boundary_excludes_old (store : Store) (env : IncEnv)
    (record : RecordInfo) (last : String) (ld : Date) (nv : ValMap) (u : String)
    (hlast : get_last_date_from_firebase store env.readFails record.px_code
      = some last)
    (hld : parseYMD last = some ld)
    (hfetch : fetch_incremental_series_data env record.api_url
      (get_last_date_from_firebase store env.readFails record.px_code)
      = .ok (nv, u)) :
    ∀ (p : String) (pd : Date), parseYMD p = some pd → strLe p last = true →
      alookup nv p = none := by
  intro p pd hpd hple
  have hskip : skipAsOld ((some last).bind parseYMD) p = true := by
    simp only [Option.bind, skipAsOld, hld, hpd]
    exact (strLe_iff_dateLe p last pd ld hpd hld).mp hple
  rw [hlast] at hfetch
  simp only [fetch_incremental_series_data] at hfetch
  cases hresp : env.response
      (build_incremental_api_url record.api_url (some last) env.nowYM) with
  | error e =>
    rw [hresp] at hfetch
    exact absurd hfetch (by simp)
  | ok rows =>
    rw [hresp] at hfetch
    simp only [Except.ok.injEq, Prod.mk.injEq] at hfetch
    obtain ⟨hnv, -⟩ := hfetch
    rw [← hnv]
    refine alookup_dictOfRows_none _ _ ?_
    intro pv hpv hp
    rw [List.mem_filter] at hpv
    rw [hp] at hpv
    rw [hskip] at hpv
    simp at hpv

/-- Witness for claim C4: the remote over-returns the stored period
`2024-01-01` alongside a new one; the fetched new-values set excludes it;
every hypothesis discharged concretely. -/
theorem incremental_boundary_excludes_old_witness :
    fetch_incremental_series_data exEnvOver exRec.api_url
      (get_last_date_from_firebase exStore1 exEnvOver.readFails exRec.px_code)
      = .ok ([("2024-02-01", 5)], "https://x/t/1/p/202402-202510/v/63")
    ∧ alookup ([("2024-02-01", 5)] : ValMap) "2024-01-01" = none := by
  constructor
  · decide
  · exact incremental_boundary_excludes_old exStore1 exEnvOver exRec
      "2024-01-01" (2024, 1, 1) [("2024-02-01", 5)]
      "https://x/t/1/p/202402-202510/v/63" (by decide) (by decide) (by decide)
      "2024-01-01" (2024, 1, 1) (by decide) (by decide)

theorem replaceAllAux_skip_exact (pat repl : List Char) (x b : List Char) :
    replaceAllAux pat repl x.length (x ++ b) = replaceAllAux pat repl 0 b := by
  induction x with
  | nil => rfl
  | cons c cs ih =>
    simp only [List.length_cons, List.cons_append, replaceAllAux]
    exact ih

theorem replaceAllAux_id (pat repl l : List Char)
    (h : occursIn pat l = false) :
    replaceAllAux pat repl 0 l = l := by
  induction l with
  | nil => rfl
  | cons c cs ih =>
    simp only [occursIn, Bool.or_eq_false_iff] at h
    rw [replaceAllAux, if_neg, ih h.2]
    rintro ⟨hp, -⟩
    rw [h.1] at hp
    exact Bool.false_ne_true hp

theorem replaceAllAux_split (pat repl a b : List Char) (hne : pat ≠ [])
    (hstart : noStartIn pat a (pat ++ b) = true) :
    replaceAllAux pat repl 0 (a ++ (pat ++ b))
      = a ++ repl ++ replaceAllAux pat repl 0 b := by
  induction a with
  | nil =>
    obtain ⟨p0, pt, rfl⟩ : ∃ p0 pt, pat = p0 :: pt := by
      cases pat with
      | nil => exact absurd rfl hne
      | cons p0 pt => exact ⟨p0, pt, rfl⟩
    simp only [List.nil_append, List.cons_append]
    rw [replaceAllAux, if_pos (And.intro (by
      rw [List.isPrefixOf_iff_prefix, ← List.cons_append]
      exact List.prefix_append _ _) hne)]
    simp only [List.length_cons, Nat.add_sub_cancel]
    rw [replaceAllAux_skip_exact]
  | cons c a' ih =>
    simp only [noStartIn, Bool.and_eq_true, Bool.not_eq_true'] at hstart
    simp only [List.cons_append]
    rw [replaceAllAux, if_neg (by
      rintro ⟨hp, -⟩
      rw [hstart.1] at hp
      exact Bool.false_ne_true hp), ih hstart.2]

theorem subPeriodParam_cons_of_not_start (repl : List Char) (c : Char)
    (cs : List Char) (h : isPMatchStart (c :: cs) = false) :
    subPeriodParam repl (c :: cs) = c :: subPeriodParam repl cs := by
  rw [subPeriodParam.eq_def]
  split
  · next c4 rest heq =>
    obtain ⟨rfl, rfl⟩ : c = '/' ∧ cs = 'p' :: '/' :: c4 :: rest := by
      injection heq with h1 h2
      exact ⟨h1, h2⟩
    have hc4 : c4 = '/' := by
      simp only [isPMatchStart] at h
      simpa using h
    subst hc4
    simp
  · next c' cs' hexcl heq =>
    injection heq with h1 h2
    rw [h1, h2]
  · next heq => exact absurd heq (by simp)

theorem hasPMatch_cons_of_not_start (c : Char) (cs : List Char)
    (h : isPMatchStart (c :: cs) = false) :
    hasPMatch (c :: cs) = hasPMatch cs := by
  rw [hasPMatch.eq_def]
  split
  · next c4 rest heq =>
    obtain ⟨rfl, rfl⟩ : c = '/' ∧ cs = 'p' :: '/' :: c4 :: rest := by
      injection heq with h1 h2
      exact ⟨h1, h2⟩
    have hc4 : c4 = '/' := by
      simp only [isPMatchStart] at h
      simpa using h
    subst hc4
    simp
  · next c' cs' hexcl heq =>
    injection heq with h1 h2
    rw [h2]
  · next heq => exact absurd heq (by simp)

theorem subPeriodParam_id (repl : List Char) :
    ∀ l : List Char, hasPMatch l = false → subPeriodParam repl l = l := by
  intro l
  induction l using hasPMatch.induct with
  | case1 c4 rest ih =>
    intro h
    simp only [hasPMatch, Bool.or_eq_false_iff, Bool.not_eq_false'] at h
    have hc4 : c4 = '/' := by simpa using h.1
    have hstep : subPeriodParam repl ('/' :: 'p' :: '/' :: c4 :: rest)
        = '/' :: subPeriodParam repl ('p' :: '/' :: c4 :: rest) := by
      apply subPeriodParam_cons_of_not_start
      subst hc4
      simp [isPMatchStart]
    rw [hstep, ih h.2]
  | case2 c cs hno ih =>
    intro h
    have hstart : isPMatchStart (c :: cs) = false := by
      rw [isPMatchStart.eq_def]
      split
      · next c4 tail heq =>
        injection heq with h1 h2
        exact absurd trivial (fun _ => hno c4 tail h1 h2)
      · rfl
    rw [subPeriodParam_cons_of_not_start repl c cs hstart]
    rw [hasPMatch_cons_of_not_start c cs hstart] at h
    rw [ih h]
  | case3 =>
    intro h
    simp [subPeriodParam]

theorem subPeriodParam_append_prefix (repl : List Char) (a tail : List Char)
    (h : noPStartIn a tail = true) :
    subPeriodParam repl (a ++ tail) = a ++ subPeriodParam repl tail := by
  induction a with
  | nil => simp
  | cons c a' ih =>
    simp only [noPStartIn, Bool.and_eq_true, Bool.not_eq_true'] at h
    simp only [List.cons_append]
    rw [subPeriodParam_cons_of_not_start repl c (a' ++ tail) h.1, ih h.2]

theorem dropWhile_nonslash (seg b : List Char) (hseg : ∀ c ∈ seg, c ≠ '/')
    (hb : b = [] ∨ ∃ bs, b = '/' :: bs) :
    (seg ++ b).dropWhile (fun x => x ≠ '/') = b := by
  induction seg with
  | nil =>
    rcases hb with rfl | ⟨bs, rfl⟩
    · rfl
    · simp [List.dropWhile_cons]
  | cons c cs ih =>
    simp only [List.cons_append, List.dropWhile_cons]
    rw [if_pos (by simpa using hseg c (List.mem_cons_self _ _))]
    exact ih (fun x hx => hseg x (List.mem_cons_of_mem _ hx))

theorem daysInMonth_ge_28 (y m : Nat) : 28 ≤ daysInMonth y m := by
  unfold daysInMonth
  split
  · split <;> omega
  · split <;> omega

theorem daysInMonth_le_31 (y m : Nat) : daysInMonth y m ≤ 31 := by
  unfold daysInMonth
  split
  · split <;> omega
  · split <;> omega

/-- For a canonical day-1 period key the incremental start period is
exactly the following month. -/
theorem add32day1_day_one (y m : Nat) : add32day1 y m 1 = nextMonth y m := by
  have h1 := daysInMonth_ge_28 y m
  have h2 := daysInMonth_le_31 y m
  have h3 := daysInMonth_ge_28 (nextMonth y m).1 (nextMonth y m).2
  simp only [add32day1]
  rw [if_pos (by omega)]

/-- Claim C5 — URL narrowing: with no checkpoint, an unparsable checkpoint,
or no `/p/` period parameter in the URL, the original full-history URL is
used unchanged; with a parsed checkpoint the period parameter — whether
the literal `/p/all` or any other `/p/<segment>` — is rewritten to the
range `{YYYYMM of the month after the checkpoint}-{YYYYMM of now}`, and
for a canonical day-1 monthly checkpoint that start month is exactly the
next period after the bound. -/
theorem incremental_url_narrowing :
    (∀ (url : String) (now : Nat × Nat),
      build_incremental_api_url url none now = url)
    ∧ (∀ (url d : String) (now : Nat × Nat), parseYMD d = none →
        build_incremental_api_url url (some d) now = url)
    ∧ (∀ (url d : String) (now : Nat × Nat),
        strContains url "/p/" = false →
        build_incremental_api_url url (some d) now = url)
    ∧ (∀ (url d : String) (now : Nat × Nat) (y m day : Nat) (a b : List Char),
        parseYMD d = some (y, m, day) →
        url.toList = a ++ "/p/all".toList ++ b →
        noStartIn "/p/all".toList a ("/p/all".toList ++ b) = true →
        occursIn "/p/all".toList b = false →
        (build_incremental_api_url url (some d) now).toList
          = a ++ ("/p/" ++ fmtYM (add32day1 y m day) ++ "-"
              ++ fmtYM now).toList ++ b)
    ∧ (∀ (url d : String) (now : Nat × Nat) (y m day : Nat)
        (a seg b : List Char) (c4 : Char),
        parseYMD d = some (y, m, day) →
        strContains url "/p/all" = false →
        url.toList = a ++ ('/' :: 'p' :: '/' :: c4 :: (seg ++ b)) →
        c4 ≠ '/' → (∀ c ∈ seg, c ≠ '/') →
        (b = [] ∨ ∃ bs, b = '/' :: bs) →
        noPStartIn a ('/' :: 'p' :: '/' :: c4 :: (seg ++ b)) = true →
        hasPMatch b = false →
        (build_incremental_api_url url (some d) now).toList
          = a ++ ("/p/" ++ fmtYM (add32day1 y m day) ++ "-"
              ++ fmtYM now).toList ++ b)
    ∧ (∀ y m : Nat, add32day1 y m 1 = nextMonth y m) := by
  refine ⟨fun url now => rfl, ?_, ?_, ?_, ?_, add32day1_day_one⟩
  · intro url d now h
    simp [build_incremental_api_url, h]
  · intro url d now h
    have hall : strContains url "/p/all" = false := by
      rw [strContains] at h ⊢
      simp only [decide_eq_false_iff_not] at h ⊢
      intro hc
      exact h (List.IsInfix.trans (by decide) hc)
    cases hd : parseYMD d with
    | none => simp [build_incremental_api_url, hd]
    | some p =>
      obtain ⟨y, m, day⟩ := p
      simp [build_incremental_api_url, hd, hall, h]
  · intro url d now y m day a b hd hurl hstart hocc
    have hall : strContains url "/p/all" = true := by
      rw [strContains, decide_eq_true_eq, hurl]
      exact ⟨a, b, rfl⟩
    simp only [build_incremental_api_url, hd, hall, if_true]
    show replaceAll _ _ url.toList = _
    rw [replaceAll, hurl, List.append_assoc,
      replaceAllAux_split _ _ _ _ (by decide) hstart,
      replaceAllAux_id _ _ _ hocc]
  · intro url d now y m day a seg b c4 hd hall hurl hc4 hseg hb hstart hmb
    have hp : strContains url "/p/" = true := by
      rw [strContains, decide_eq_true_eq, hurl]
      exact ⟨a, c4 :: (seg ++ b), by simp⟩
    simp only [build_incremental_api_url, hd, hall, Bool.false_eq_true,
      if_false, hp, if_true]
    show (subPeriodParam _ url.toList : List Char) = _
    rw [hurl, subPeriodParam_append_prefix _ _ _ hstart]
    have harm : subPeriodParam
        ("/p/" ++ fmtYM (add32day1 y m day) ++ "-" ++ fmtYM now).toList
        ('/' :: 'p' :: '/' :: c4 :: (seg ++ b))
        = ("/p/" ++ fmtYM (add32day1 y m day) ++ "-" ++ fmtYM now).toList
          ++ b := by
      rw [subPeriodParam]
      rw [if_pos hc4, dropWhile_nonslash seg b hseg hb,
        subPeriodParam_id _ b hmb]
    rw [harm, ← List.append_assoc]

/-- Witness for claim C5: the two rewritable URL shapes — a `/p/all`
full-history URL and a `/p/last%2012` bounded URL — are narrowed to
`/p/202407-202510` for the checkpoint `2024-06-01` at clock 2025-10, and
the no-period-parameter URL is left unchanged; all hypotheses discharged
concretely. -/
theorem incremental_url_narrowing_witness :
    (build_incremental_api_url "https://x/t/1/p/all/v/63"
      (some "2024-06-01") (2025, 10)).toList
      = "https://x/t/1/p/202407-202510/v/63".toList
    ∧ (build_incremental_api_url "https://x/t/1/p/last%2012/v/63"
        (some "2024-06-01") (2025, 10)).toList
      = "https://x/t/1/p/202407-202510/v/63".toList
    ∧ build_incremental_api_url "https://x/t/1/v/63"
        (some "2024-06-01") (2025, 10) = "https://x/t/1/v/63" := by
  refine ⟨?_, ?_, ?_⟩
  · have h := incremental_url_narrowing.2.2.2.1 "https://x/t/1/p/all/v/63"
      "2024-06-01" (2025, 10) 2024 6 1 "https://x/t/1".toList "/v/63".toList
      (by decide) (by decide) (by decide) (by decide)
    rw [h]
    decide
  · have h := incremental_url_narrowing.2.2.2.2.1 "https://x/t/1/p/last%2012/v/63"
      "2024-06-01" (2025, 10) 2024 6 1 "https://x/t/1".toList
      "ast%2012".toList "/v/63".toList 'l'
      (by decide) (by decide) (by decide) (by decide) (by decide)
      (Or.inr ⟨"v/63".toList, by decide⟩) (by decide) (by decide)
    rw [h]
    decide
  · exact incremental_url_narrowing.2.2.1 "https://x/t/1/v/63" "2024-06-01"
      (2025, 10) (by decide)

/-- Claim C9 (counterexample) — A batch run of the *incremental* script in
which the single record fails (fetch error) persists no log artifact at
all: its `main` maintains no failure list and writes no file, so the
failure is only counted, contradicting the claim that every batch run
persists the failure list to a timestamped log artifact. -/
theorem incremental_no_failure_log_counterexample :
    (incremental_main_batch [⟨⟨[], []⟩, false, .fetchFailed "boom"⟩]).failures = 1
    ∧ (incremental_main_batch
        [⟨⟨[], []⟩, false, .fetchFailed "boom"⟩]).artifacts = [] := by
  constructor <;> rfl

/-- Claim C9 (amended) — Only the vintages batch runner keeps a failure
log: every failed per-record outcome contributes an entry carrying the
record's identifier, label, endpoint and error text to the batch failure
list, and when that list is nonempty it is persisted at end of batch —
whatever the other records did — as an artifact holding the dataset, the
run timestamp and the failed count; the incremental batch runner persists
no artifact. -/
theorem vintages_only_persist_failure_log :
    (∀ (results : List (RecordInfo × Except String (Bool × VinMessage)))
      (rec : RecordInfo) (res : Except String (Bool × VinMessage))
      (e : FailedEntry), (rec, res) ∈ results → vinFailedEntry? rec res = some e →
      e ∈ vintages_failed_records results
      ∧ e.px_code = rec.px_code ∧ e.label = rec.label
      ∧ e.general_name = rec.general_name ∧ e.api_url = rec.api_url)
    ∧ (∀ (dataset ts : String)
        (results : List (RecordInfo × Except String (Bool × VinMessage))),
        vintages_failed_records results ≠ [] →
        vintages_failure_log dataset ts results
          = some ⟨dataset, ts, (vintages_failed_records results).length,
              vintages_failed_records results⟩)
    ∧ (∀ results : List IncResult,
        (incremental_main_batch results).artifacts = []) := by
  refine ⟨?_, ?_, fun results => rfl⟩
  · intro results rec res e hmem hentry
    refine ⟨?_, ?_⟩
    · rw [vintages_failed_records, List.mem_filterMap]
      exact ⟨(rec, res), hmem, hentry⟩
    · unfold vinFailedEntry? at hentry
      split at hentry
      · injection hentry with h
        rw [← h]
        exact ⟨rfl, rfl, rfl, rfl⟩
      · injection hentry with h
        rw [← h]
        exact ⟨rfl, rfl, rfl, rfl⟩
      · exact absurd hentry (by simp)
  · intro dataset ts results hne
    rw [vintages_failure_log, if_neg hne]

/-- Witness for claim C9 (amended): in a two-record batch where the first
record succeeds and the second fails, the failure entry (with identifier,
label, endpoint and fetch-error text) is in the list and the persisted
artifact carries it with count 1; hypotheses discharged concretely. -/
theorem vintages_only_persist_failure_log_witness :
    (⟨"X2", "l2", "g2", "u2", "SIDRA fetch failed: boom"⟩ : FailedEntry)
      ∈ vintages_failed_records
        [(⟨"X1", "b", "ds", "l1", "g1", "u1"⟩, .ok (true, .firstIngestion 2)),
         (⟨"X2", "b", "ds", "l2", "g2", "u2"⟩, .ok (false, .fetchFailed "boom"))]
    ∧ vintages_failure_log "ds" "T"
        [(⟨"X1", "b", "ds", "l1", "g1", "u1"⟩, .ok (true, .firstIngestion 2)),
         (⟨"X2", "b", "ds", "l2", "g2", "u2"⟩, .ok (false, .fetchFailed "boom"))]
      = some ⟨"ds", "T", 1,
          [⟨"X2", "l2", "g2", "u2", "SIDRA fetch failed: boom"⟩]⟩ := by
  constructor
  · exact (vintages_only_persist_failure_log.1 _
      ⟨"X2", "b", "ds", "l2", "g2", "u2"⟩ (.ok (false, .fetchFailed "boom"))
      ⟨"X2", "l2", "g2", "u2", "SIDRA fetch failed: boom"⟩
      (by simp) (by rfl)).1
  · have h := vintages_only_persist_failure_log.2.1 "ds" "T"
      [(⟨"X1", "b", "ds", "l1", "g1", "u1"⟩, .ok (true, .firstIngestion 2)),
       (⟨"X2", "b", "ds", "l2", "g2", "u2"⟩, .ok (false, .fetchFailed "boom"))]
      (by decide)
    rw [h]
    rfl

end DatabasePX
